import Mathlib

/-
  Verification of the vessel fusion / viewport-bounded cache engine of the
  Quayside repository (src/static/js/auth.js and the unnamed websocket client).

  JavaScript Maps are modelled as association lists in insertion order, with
  `mset` mirroring Map.set (update in place, append when new), `mget`
  mirroring Map.get (SameValueZero key equality: a string key and a numeric
  key are distinct), `mdelete` mirroring Map.delete, and `mrebuild` mirroring
  the `new Map([...a, ...b])` spread rebuild used throughout the source.
  JavaScript numbers used for coordinates and speeds are modelled as rationals;
  absent object properties are modelled with Option.
-/

namespace Quayside

/-- A JavaScript Map key as used for MMSI values: the source stores MMSIs
either as strings or as numbers (SameValueZero equality, so `"123"` and `123`
are distinct keys); `absent` models a missing `mmsi` property. -/
inductive MKey where
  | str (s : String)
  | num (n : Int)
  | absent
deriving DecidableEq, Repr

/-- JavaScript `String(x)` on an MMSI value. -/
def keyToString : MKey → String
  | .str s => s
  | .num n => toString n
  | .absent => "undefined"

/-- A vessel record as handled by auth.js. Tracked records additionally carry
the persisted `id` and `added_at`; stream records leave them `none` (the
stream payload has no such properties). Coordinates and telemetry are
modelled as rationals. -/
structure VRec where
  id : Option Int := none
  added_at : Option String := none
  mmsi : MKey := .absent
  name : Option String := none
  imo : Option String := none
  callsign : Option String := none
  ship_type : Option String := none
  ship_category : Option String := none
  destination : Option String := none
  latitude : ℚ := 0
  longitude : ℚ := 0
  speed : ℚ := 0
  heading : ℚ := 0
  is_ballast : Bool := false
  is_anchored : Bool := false
  is_stationary : Bool := false
deriving DecidableEq, Repr

/-- The vessel maps of auth.js (`myVessels`, `aisVessels`, `allVessels`):
association lists in insertion order, keyed by MMSI. -/
abbrev VMap := List (MKey × VRec)

/-- Map.get: first entry with the key (maps built by `mset` never hold
duplicate keys, so this is the entry). -/
def mget : VMap → MKey → Option VRec
  | [], _ => none
  | p :: rest, k => if p.1 = k then some p.2 else mget rest k

/-- Map.has. -/
def mhas (m : VMap) (k : MKey) : Bool := (mget m k).isSome

/-- Map.set: replace in place when the key exists, append otherwise. -/
def mset : VMap → MKey → VRec → VMap
  | [], k, v => [(k, v)]
  | p :: rest, k, v => if p.1 = k then (k, v) :: rest else p :: mset rest k v

/-- Map.delete (removes the entry with the key, when present). -/
def mdelete : VMap → MKey → VMap
  | [], _ => []
  | p :: rest, k => if p.1 = k then rest else p :: mdelete rest k

/-- Map.size. -/
def msize (m : VMap) : Nat := m.length

/-- The keys of a map in insertion order. -/
def mkeys (m : VMap) : List MKey := m.map (·.1)

/-- The values of a map in insertion order (Array.from(map.values())). -/
def mvalues (m : VMap) : List VRec := m.map (·.2)

/-- `new Map(entries)`: feed a pair list through Map.set from an empty map. -/
def mrebuild (l : List (MKey × VRec)) : VMap :=
  l.foldl (fun m p => mset m p.1 p.2) []

/-- `new Map([...a, ...b])`, the fusion rebuild used throughout auth.js:
entries of `b` overwrite entries of `a` at equal keys. -/
def munion (a b : VMap) : VMap := mrebuild (a ++ b)

/-- Option fallback mirroring the JavaScript `||` / property-overwrite
patterns on values that are never falsy. -/
def oor {α : Type} : Option α → Option α → Option α
  | some v, _ => some v
  | none, b => b

/-- A map is well formed when its keys are pairwise distinct; every map built
by Map operations from an empty map satisfies this. -/
def WFm (m : VMap) : Prop := (mkeys m).Nodup

instance (m : VMap) : Decidable (WFm m) :=
  inferInstanceAs (Decidable (mkeys m).Nodup)

@[simp] theorem oor_some {α : Type} (v : α) (b : Option α) : oor (some v) b = some v := rfl

@[simp] theorem oor_none {α : Type} (b : Option α) : oor none b = b := rfl

theorem mget_mset (m : VMap) (k : MKey) (v : VRec) (k' : MKey) :
    mget (mset m k v) k' = if k' = k then some v else mget m k' := by
  induction m with
  | nil =>
    by_cases h : k' = k
    · subst h; simp [mset, mget]
    · have h2 : ¬ k = k' := fun hh => h hh.symm
      simp [mset, mget, h, h2]
  | cons p rest ih =>
    simp only [mset]
    by_cases hpk : p.1 = k
    · rw [if_pos hpk]
      by_cases hk : k' = k
      · subst hk; simp [mget]
      · have h2 : ¬ k = k' := fun hh => hk hh.symm
        have h3 : ¬ p.1 = k' := by rw [hpk]; exact h2
        simp [mget, hk, h2, h3]
    · rw [if_neg hpk]
      by_cases hpk' : p.1 = k'
      · have hk : ¬ k' = k := fun hh => hpk (hpk'.trans hh)
        simp [mget, hpk', hk]
      · simp [mget, hpk', ih]

theorem mhas_mset (m : VMap) (k : MKey) (v : VRec) (k' : MKey) :
    mhas (mset m k v) k' = (decide (k' = k) || mhas m k') := by
  by_cases h : k' = k <;> simp [mhas, mget_mset, h]

theorem mhas_iff_mem (m : VMap) (k : MKey) : mhas m k = true ↔ k ∈ mkeys m := by
  induction m with
  | nil => simp [mhas, mget, mkeys]
  | cons p rest ih =>
    by_cases h : p.1 = k
    · simp [mhas, mget, mkeys, h]
    · have h' : ¬ k = p.1 := fun hh => h hh.symm
      simp only [mhas, mget, mkeys, List.map_cons, List.mem_cons, if_neg h]
      simp only [mhas, mkeys] at ih
      rw [ih]
      exact ⟨fun hh => Or.inr hh, fun hh => hh.resolve_left h'⟩

theorem mkeys_mset (m : VMap) (k : MKey) (v : VRec) :
    mkeys (mset m k v) = if mhas m k then mkeys m else mkeys m ++ [k] := by
  induction m with
  | nil => simp [mset, mkeys, mhas, mget]
  | cons p rest ih =>
    by_cases h : p.1 = k
    · simp [mset, mkeys, mhas, mget, h]
    · have h' : mhas (p :: rest) k = mhas rest k := by simp [mhas, mget, h]
      simp only [mset, if_neg h, mkeys, List.map_cons, h']
      by_cases hr : mhas rest k = true
      · simp only [mkeys] at ih
        simp [hr, ih]
      · simp only [mkeys] at ih
        simp [hr, ih]

theorem wfm_mset (m : VMap) (k : MKey) (v : VRec) (h : WFm m) : WFm (mset m k v) := by
  unfold WFm
  rw [mkeys_mset]
  by_cases hk : mhas m k = true
  · simpa [hk] using h
  · have hnot : k ∉ mkeys m := fun hm => hk ((mhas_iff_mem m k).mpr hm)
    simp [hk, List.nodup_append, hnot]
    exact h

theorem wfm_nil : WFm [] := List.nodup_nil

theorem oor_none_right {α : Type} (a : Option α) : oor a none = a := by
  cases a <;> rfl

/-- The value of the last entry with the given key in a pair list: the entry
that survives a `new Map(...)` rebuild of that list. -/
def lastVal (l : List (MKey × VRec)) (k : MKey) : Option VRec :=
  l.foldl (fun acc p => if p.1 = k then some p.2 else acc) none

theorem foldl_lastStep (l : List (MKey × VRec)) (k : MKey) (acc : Option VRec) :
    l.foldl (fun a p => if p.1 = k then some p.2 else a) acc = oor (lastVal l k) acc := by
  induction l generalizing acc with
  | nil => simp [lastVal, oor]
  | cons q rest ih =>
    simp only [List.foldl_cons]
    rw [ih]
    have hq : lastVal (q :: rest) k = oor (lastVal rest k) (if q.1 = k then some q.2 else none) := by
      have h2 := ih (if q.1 = k then some q.2 else none)
      simpa [lastVal] using h2
    rw [hq]
    cases lastVal rest k <;> by_cases h : q.1 = k <;> simp [oor, h]

theorem lastVal_cons (q : MKey × VRec) (rest : List (MKey × VRec)) (k : MKey) :
    lastVal (q :: rest) k = oor (lastVal rest k) (if q.1 = k then some q.2 else none) := by
  have h2 := foldl_lastStep rest k (if q.1 = k then some q.2 else none)
  simpa [lastVal] using h2

theorem lastVal_append (a b : List (MKey × VRec)) (k : MKey) :
    lastVal (a ++ b) k = oor (lastVal b k) (lastVal a k) := by
  simp only [lastVal, List.foldl_append]
  rw [foldl_lastStep]
  rfl

theorem lastVal_eq_none_iff (l : List (MKey × VRec)) (k : MKey) :
    lastVal l k = none ↔ k ∉ l.map (·.1) := by
  induction l with
  | nil => simp [lastVal]
  | cons q rest ih =>
    rw [lastVal_cons]
    by_cases h : q.1 = k
    · subst h
      have h2 : q.1 ∈ (q :: rest).map (·.1) := by simp
      simp [h2]
      cases lastVal rest q.1 <;> simp [oor]
    · have h' : ¬ k = q.1 := fun hh => h hh.symm
      rw [if_neg h, oor_none_right, ih]
      simp [h']

theorem mget_foldl_mset (l : List (MKey × VRec)) (m0 : VMap) (k : MKey) :
    mget (l.foldl (fun m p => mset m p.1 p.2) m0) k = oor (lastVal l k) (mget m0 k) := by
  induction l generalizing m0 with
  | nil => simp [lastVal]
  | cons q rest ih =>
    simp only [List.foldl_cons]
    rw [ih, mget_mset, lastVal_cons]
    cases lastVal rest k with
    | some w => simp [oor]
    | none =>
      by_cases h : q.1 = k
      · subst h
        simp [oor]
      · have h2 : ¬ k = q.1 := fun hh => h hh.symm
        simp [oor, h, h2]

theorem wfm_foldl_mset (l : List (MKey × VRec)) (m0 : VMap) (h : WFm m0) :
    WFm (l.foldl (fun m p => mset m p.1 p.2) m0) := by
  induction l generalizing m0 with
  | nil => exact h
  | cons q rest ih => exact ih _ (wfm_mset _ _ _ h)

theorem wfm_mrebuild (l : List (MKey × VRec)) : WFm (mrebuild l) :=
  wfm_foldl_mset l [] wfm_nil

theorem wfm_munion (a b : VMap) : WFm (munion a b) := wfm_mrebuild _

theorem mget_mrebuild (l : List (MKey × VRec)) (k : MKey) :
    mget (mrebuild l) k = lastVal l k := by
  rw [mrebuild, mget_foldl_mset]
  simp [mget, oor_none_right]

theorem mget_eq_none_iff (m : VMap) (k : MKey) : mget m k = none ↔ k ∉ mkeys m := by
  rw [← mhas_iff_mem]
  cases hg : mget m k <;> simp [mhas, hg]

theorem lastVal_eq_mget (m : VMap) (k : MKey) (h : WFm m) : lastVal m k = mget m k := by
  induction m with
  | nil => rfl
  | cons p rest ih =>
    have h2 : p.1 ∉ mkeys rest ∧ WFm rest := by
      simpa [WFm, mkeys] using h
    rw [lastVal_cons, ih h2.2]
    by_cases hp : p.1 = k
    · have hn : mget rest k = none := by
        rw [mget_eq_none_iff]
        rw [← hp]
        exact h2.1
      simp [mget, hp, hn, oor]
    · simp [mget, hp, oor_none_right]

theorem mget_munion (a b : VMap) (k : MKey) (ha : WFm a) (hb : WFm b) :
    mget (munion a b) k = oor (mget b k) (mget a k) := by
  rw [munion, mget_mrebuild, lastVal_append, lastVal_eq_mget a k ha, lastVal_eq_mget b k hb]

theorem mhas_mrebuild_iff (l : List (MKey × VRec)) (k : MKey) :
    mhas (mrebuild l) k = true ↔ k ∈ l.map (·.1) := by
  unfold mhas
  rw [mget_mrebuild]
  rcases hv : lastVal l k with _ | w
  · simp [(lastVal_eq_none_iff l k).mp hv]
  · have hne : ¬ lastVal l k = none := by simp [hv]
    have hm := (not_iff_not.mpr (lastVal_eq_none_iff l k)).mp hne
    rw [not_not] at hm
    simp [hm]

theorem mhas_munion (a b : VMap) (k : MKey) :
    mhas (munion a b) k = true ↔ (mhas a k = true ∨ mhas b k = true) := by
  rw [munion, mhas_mrebuild_iff]
  simp only [List.map_append, List.mem_append]
  rw [mhas_iff_mem, mhas_iff_mem]
  unfold mkeys
  exact Iff.rfl

theorem mset_of_not_has (m : VMap) (k : MKey) (v : VRec) (h : ¬ mhas m k = true) :
    mset m k v = m ++ [(k, v)] := by
  induction m with
  | nil => rfl
  | cons p rest ih =>
    have hp : ¬ p.1 = k := by
      intro he
      exact h (by simp [mhas, mget, he])
    have hr : ¬ mhas rest k = true := by
      intro hh
      exact h (by simp [mhas, mget, hp] at hh ⊢; exact hh)
    simp [mset, hp, ih hr]

theorem mget_append (a b : VMap) (k : MKey) :
    mget (a ++ b) k = oor (mget a k) (mget b k) := by
  induction a with
  | nil => simp [mget, oor]
  | cons p rest ih =>
    by_cases h : p.1 = k <;> simp [mget, h, ih, oor]

theorem mrebuild_eq_self (l : VMap) (h : WFm l) : mrebuild l = l := by
  suffices hgen : ∀ (m0 : VMap), (∀ p ∈ l, ¬ mhas m0 p.1 = true) → WFm l →
      l.foldl (fun m p => mset m p.1 p.2) m0 = m0 ++ l by
    simpa using hgen [] (by intro p _; simp [mhas, mget]) h
  clear h
  induction l with
  | nil => intro m0 _ _; simp
  | cons q rest ih =>
    intro m0 hd hnod
    have h2 : q.1 ∉ mkeys rest ∧ WFm rest := by
      simpa [WFm, mkeys] using hnod
    simp only [List.foldl_cons]
    rw [mset_of_not_has m0 q.1 q.2 (hd q (by simp))]
    rw [ih (m0 ++ [(q.1, q.2)]) ?hd h2.2]
    · simp
    · intro p hp
      rw [mhas, mget_append]
      have h1 : ¬ mhas m0 p.1 = true := hd p (by simp [hp])
      have hq : ¬ p.1 = q.1 := by
        intro he
        exact h2.1 (by rw [← he]; exact List.mem_map_of_mem (·.1) hp)
      have hq' : ¬ q.1 = p.1 := fun hh => hq hh.symm
      cases hg : mget m0 p.1
      · simp [mget, oor, hq']
      · exact absurd (by simp [mhas, hg]) h1

theorem mhas_mdelete (m : VMap) (k0 k : MKey) (h : WFm m) :
    mhas (mdelete m k0) k = (mhas m k && !(decide (k = k0))) := by
  induction m with
  | nil => simp [mdelete, mhas, mget]
  | cons p rest ih =>
    have h2 : p.1 ∉ mkeys rest ∧ WFm rest := by
      simpa [WFm, mkeys] using h
    by_cases hp0 : p.1 = k0
    · simp only [mdelete, if_pos hp0]
      by_cases hk : k = k0
      · subst hk
        have hn : mget rest k = none := by
          rw [mget_eq_none_iff, ← hp0]
          exact h2.1
        simp [mhas, hn]
      · have hpk : ¬ p.1 = k := by rw [hp0]; exact fun hh => hk hh.symm
        simp [mhas, mget, hpk, hk]
    · simp only [mdelete, if_neg hp0]
      by_cases hpk : p.1 = k
      · have hk : ¬ k = k0 := by rw [← hpk]; exact hp0
        simp [mhas, mget, hpk, hk]
      · simp [mhas, mget, hpk] at ih ⊢
        exact ih h2.2

theorem mkeys_mdelete_sublist (m : VMap) (k0 : MKey) :
    (mkeys (mdelete m k0)).Sublist (mkeys m) := by
  induction m with
  | nil => simp [mdelete]
  | cons p rest ih =>
    by_cases hp : p.1 = k0
    · simp only [mdelete, if_pos hp, mkeys, List.map_cons]
      exact List.sublist_cons_self _ _
    · simp only [mdelete, if_neg hp, mkeys, List.map_cons]
      exact ih.cons₂ _

theorem wfm_mdelete (m : VMap) (k0 : MKey) (h : WFm m) : WFm (mdelete m k0) := by
  unfold WFm at h ⊢
  exact (mkeys_mdelete_sublist m k0).nodup h

theorem wfm_filter (m : VMap) (q : MKey × VRec → Bool) (h : WFm m) : WFm (m.filter q) := by
  unfold WFm mkeys at h ⊢
  have hs : (m.filter q).Sublist m := List.filter_sublist m
  exact (hs.map _).nodup h

theorem mhas_filter_imp (m : VMap) (q : MKey × VRec → Bool) (k : MKey)
    (h : mhas (m.filter q) k = true) : mhas m k = true := by
  rw [mhas_iff_mem] at h ⊢
  simp only [mkeys, List.mem_map] at h ⊢
  obtain ⟨p, hp, hk⟩ := h
  exact ⟨p, (List.mem_filter.mp hp).1, hk⟩

/- ===== Viewport bounds (auth.js lines 466-472) ===== -/

/-- ViewportBounds: the axis-aligned lat/lon rectangle. -/
structure Bounds where
  minLat : ℚ
  minLon : ℚ
  maxLat : ℚ
  maxLon : ℚ
deriving DecidableEq, Repr

/-- isWithinBounds (auth.js 466-472) for non-null bounds: inclusive on all
four edges; the null-bounds early return is handled by Option at call sites. -/
def isWithinBounds (v : VRec) (b : Bounds) : Bool :=
  decide (v.latitude ≥ b.minLat) && decide (v.latitude ≤ b.maxLat) &&
  decide (v.longitude ≥ b.minLon) && decide (v.longitude ≤ b.maxLon)

/- ===== Fusion layer: the display-set rebuild (auth.js 329-333, 2039, 2048,
2126, 2130, etc.) ===== -/

/-- DisplayMode: the `showAllVessels` flag. -/
inductive DisplayMode where
  | AllVessels
  | TrackedOnly
deriving DecidableEq, Repr

/-- The fusion rebuild used at every recomputation site in auth.js:
`new Map([...myVessels, ...aisVessels])` when showing all vessels, and
`new Map([...myVessels])` otherwise. -/
def computeDisplaySet (tracked cache : VMap) (mode : DisplayMode) : VMap :=
  match mode with
  | .AllVessels => munion tracked cache
  | .TrackedOnly => mrebuild tracked

/- ===== Merge of a fresh stream record into a tracked record
(auth.js 2115-2117) ===== -/

/-- The object spread `\x7b ...existing, ...vessel \x7d` of the stream handler:
a property of the fresh record overwrites the existing one when present
(`none` models an absent property; stream payloads never carry `id` or
`added_at`, and always carry mmsi, coordinates, telemetry and status flags,
which are therefore total fields taken from the fresh record). -/
def mergeVRec (existing fresh : VRec) : VRec :=
  { id := oor fresh.id existing.id
    added_at := oor fresh.added_at existing.added_at
    mmsi := fresh.mmsi
    name := oor fresh.name existing.name
    imo := oor fresh.imo existing.imo
    callsign := oor fresh.callsign existing.callsign
    ship_type := oor fresh.ship_type existing.ship_type
    ship_category := oor fresh.ship_category existing.ship_category
    destination := oor fresh.destination existing.destination
    latitude := fresh.latitude
    longitude := fresh.longitude
    speed := fresh.speed
    heading := fresh.heading
    is_ballast := fresh.is_ballast
    is_anchored := fresh.is_anchored
    is_stationary := fresh.is_stationary }

/- ===== Cache admission (auth.js 1986-1988 and 2112) ===== -/

/-- A sequence of cache admissions: `vessels.forEach(v => map.set(v.mmsi, v))`. -/
def admitAll (m : VMap) (vs : List VRec) : VMap :=
  vs.foldl (fun acc v => mset acc v.mmsi v) m

/- ===== String helpers mirroring the JavaScript primitives ===== -/

/-- JavaScript `haystack.includes(needle)` on lists of characters. -/
def strIncludesAux (needle : List Char) : List Char → Bool
  | [] => needle.isEmpty
  | c :: rest => needle.isPrefixOf (c :: rest) || strIncludesAux needle rest

/-- JavaScript `hay.includes(needle)`. -/
def strIncludes (hay needle : String) : Bool := strIncludesAux needle.toList hay.toList

/-- The regular expression `^\d+$` used by searchVessels (auth.js 624). -/
def isAllDigits (t : String) : Bool := !t.isEmpty && t.toList.all (·.isDigit)

/-- JavaScript `parseInt` restricted to what the source feeds it: the leading
run of digits, `none` when there is none (parseInt would yield NaN). -/
def jsParseInt (t : String) : Option Nat :=
  let ds := t.toList.takeWhile (·.isDigit)
  if ds.isEmpty then none
  else some (ds.foldl (fun n c => n * 10 + (c.toNat - 48)) 0)

/- ===== Vessel category (auth.js 493-519) ===== -/

/-- The ship_type keyword fallback of getVesselCategory (auth.js 503-518). -/
def categoryFromShipType (v : VRec) : String :=
  let t := (v.ship_type.getD "").toLower
  if t = "" then "Other"
  else if strIncludes t "tanker" || strIncludes t "oil" || strIncludes t "lng" || strIncludes t "lpg" then "Tanker"
  else if strIncludes t "container" then "Container"
  else if strIncludes t "cargo" || strIncludes t "bulk" || strIncludes t "general" then "Cargo"
  else "Other"

/-- getVesselCategory (auth.js 493-519): prefer the backend ship_category when
it is Tanker, Cargo or Container, otherwise fall back to ship_type keywords. -/
def getVesselCategory (v : VRec) : String :=
  match v.ship_category with
  | some c => if c = "Tanker" ∨ c = "Cargo" ∨ c = "Container" then c else categoryFromShipType v
  | none => categoryFromShipType v

/- ===== Filter engine (auth.js 903-956; applyFilters at 366-464 applies the
identical partition/skip/match logic to the full display set) ===== -/

/-- The four status filter names (auth.js 910). -/
def statusNames : List String := ["moving", "ballast", "anchored", "stationary"]

/-- The four type filter names (auth.js 912). -/
def typeNames : List String := ["tanker", "container", "cargo", "other"]

/-- The status part of the active filters (the loop at auth.js 909-915). -/
def statusOf (af : Finset String) : Finset String := af.filter (fun f => f ∈ statusNames)

/-- The type part of the active filters (the loop at auth.js 909-915). -/
def typeOf (af : Finset String) : Finset String := af.filter (fun f => f ∈ typeNames)

/-- allStatusSelected (auth.js 917-921). -/
def allStatusSelected (sf : Finset String) : Bool :=
  decide (sf.card = 4) && decide ("moving" ∈ sf) && decide ("anchored" ∈ sf) &&
    decide ("stationary" ∈ sf) && decide ("ballast" ∈ sf)

/-- allTypesSelected (auth.js 923-927). -/
def allTypesSelected (tf : Finset String) : Bool :=
  decide (tf.card = 4) && decide ("tanker" ∈ tf) && decide ("container" ∈ tf) &&
    decide ("cargo" ∈ tf) && decide ("other" ∈ tf)

/-- The status OR-loop of the filter predicate (auth.js 933-939), unrolled
over the four possible members of the status subset. -/
def statusMatches (sf : Finset String) (v : VRec) : Bool :=
  (decide ("moving" ∈ sf) && !v.is_ballast && !v.is_anchored && !v.is_stationary) ||
  (decide ("ballast" ∈ sf) && v.is_ballast) ||
  (decide ("anchored" ∈ sf) && v.is_anchored) ||
  (decide ("stationary" ∈ sf) && v.is_stationary)

/-- The type OR-loop of the filter predicate (auth.js 944-950), unrolled. -/
def typeMatches (tf : Finset String) (v : VRec) : Bool :=
  (decide ("tanker" ∈ tf) && decide (getVesselCategory v = "Tanker")) ||
  (decide ("container" ∈ tf) && decide (getVesselCategory v = "Container")) ||
  (decide ("cargo" ∈ tf) && decide (getVesselCategory v = "Cargo")) ||
  (decide ("other" ∈ tf) && decide (getVesselCategory v = "Other"))

/-- The per-vessel predicate of filterByActiveFilters (auth.js 929-955):
each category is skipped when empty or fully selected, AND between the two
categories. -/
def vesselPassesFilters (af : Finset String) (v : VRec) : Bool :=
  (if 0 < (statusOf af).card ∧ ¬ allStatusSelected (statusOf af) = true
   then statusMatches (statusOf af) v else true) &&
  (if 0 < (typeOf af).card ∧ ¬ allTypesSelected (typeOf af) = true
   then typeMatches (typeOf af) v else true)

/-- filterByActiveFilters (auth.js 903-956). -/
def filterByActiveFilters (af : Finset String) (vs : List VRec) : List VRec :=
  if af.card = 0 then vs else vs.filter (vesselPassesFilters af)

/- ===== Deduplication (auth.js 892-901) ===== -/

/-- JavaScript `s.trim()`: drop leading and trailing whitespace. -/
def jsTrim (s : String) : String :=
  ⟨((s.toList.dropWhile Char.isWhitespace).reverse.dropWhile Char.isWhitespace).reverse⟩

/-- The dedup key `String(vessel?.mmsi ?? '').trim()` (auth.js 895). -/
def mmsiDedupKey (v : VRec) : String :=
  jsTrim (match v.mmsi with
   | .absent => ""
   | .str s => s
   | .num n => toString n)

/-- The filter loop of dedupeVesselsByMmsi with its `seen` set: an empty key
is always kept, a seen key is dropped, a new key is kept and remembered. -/
def dedupeGo (seen : List String) : List VRec → List VRec
  | [] => []
  | v :: rest =>
    if mmsiDedupKey v = "" then v :: dedupeGo seen rest
    else if mmsiDedupKey v ∈ seen then dedupeGo seen rest
    else v :: dedupeGo (mmsiDedupKey v :: seen) rest

/-- dedupeVesselsByMmsi (auth.js 892-901). -/
def dedupeVesselsByMmsi (vessels : List VRec) : List VRec := dedupeGo [] vessels

/-- Modelled from the spec sentence "first occurrence of a given MMSI in
iteration order wins; later duplicates are dropped silently": a record is kept
exactly when no earlier record of the list carries the same MMSI key. -/
def keepFirstByKey (prev : List VRec) : List VRec → List VRec
  | [] => []
  | v :: rest =>
    if prev.any (fun u => decide (mmsiDedupKey u = mmsiDedupKey v))
    then keepFirstByKey (prev ++ [v]) rest
    else v :: keepFirstByKey (prev ++ [v]) rest

/-- The spec-side first-occurrence dedup over a whole list. -/
def specDedupeFirstOcc (vs : List VRec) : List VRec := keepFirstByKey [] vs

/- ===== Search by identifier or name (auth.js 607-702, searchVessels) ===== -/

/-- The loose MMSI comparison of the fallback scan (auth.js 631-633):
`v.mmsi === term || v.mmsi === parseInt(term) || String(v.mmsi) === term`. -/
def looseMmsiMatch (t : String) (v : VRec) : Bool :=
  decide (v.mmsi = MKey.str t) ||
  (match jsParseInt t with
   | some n => decide (v.mmsi = MKey.num (Int.ofNat n))
   | none => false) ||
  decide (keyToString v.mmsi = t)

/-- The name comparison of the text branch (auth.js 645-647):
`v.name && v.name.toLowerCase().includes(searchLower)`. -/
def nameMatch (t : String) (v : VRec) : Bool :=
  match v.name with
  | some n => !n.isEmpty && strIncludes n.toLower t.toLower
  | none => false

/-- The lookup core of searchVessels (auth.js 621-653): for an all-digits
term, `aisVessels.get(term) || myVessels.get(term)` and then the loose scan
over `new Map([...myVessels, ...aisVessels])`; otherwise the first
case-insensitive name substring match over the same merged map. -/
def findByIdentifier (myV aisV : VMap) (t : String) : Option VRec :=
  if isAllDigits t then
    oor (oor (mget aisV (MKey.str t)) (mget myV (MKey.str t)))
      ((mvalues (munion myV aisV)).find? (looseMmsiMatch t))
  else (mvalues (munion myV aisV)).find? (nameMatch t)

/-- Modelled from the spec sentence "look up in Tracked Store then Live
Cache": identical to the source lookup except that the exact-key probe asks
the Tracked Store before the Live Cache. -/
def specFindTrackedFirst (myV aisV : VMap) (t : String) : Option VRec :=
  if isAllDigits t then
    oor (oor (mget myV (MKey.str t)) (mget aisV (MKey.str t)))
      ((mvalues (munion myV aisV)).find? (looseMmsiMatch t))
  else (mvalues (munion myV aisV)).find? (nameMatch t)

/-- The amended lookup order, written from the amended claim: the exact-key
probe asks the Live Cache first, then the Tracked Store, then falls back to
the loose scan of the merged map; a non-digits term is resolved by the first
name substring match over the merged map. -/
def specFindCacheFirst (myV aisV : VMap) (t : String) : Option VRec :=
  if isAllDigits t then
    match mget aisV (MKey.str t) with
    | some v => some v
    | none =>
      match mget myV (MKey.str t) with
      | some v => some v
      | none => (mvalues (munion myV aisV)).find? (looseMmsiMatch t)
  else (mvalues (munion myV aisV)).find? (nameMatch t)

/- ===== The event-level state machine over the module globals ===== -/

/-- The mutable globals of auth.js that the fusion engine owns: myVessels,
aisVessels, allVessels (auth.js 248-250), showAllVessels (253) and
currentViewportBounds (257); dynamicBBoxEnabled is the constant true (258). -/
structure Sys where
  my : VMap
  ais : VMap
  all : VMap
  showAll : Bool
  bounds : Option Bounds
deriving DecidableEq, Repr

/-- The initial globals: empty maps, showAllVessels = true, no bounds. -/
def initSys : Sys := { my := [], ais := [], all := [], showAll := true, bounds := none }

/-- The display rebuild pattern shared by every mutation site: the union
when showing all vessels, the copy of the tracked store otherwise. -/
def rebuildAll (my ais : VMap) (showAll : Bool) : VMap :=
  if showAll then munion my ais else mrebuild my

/-- The tracked record rebuilt at load time (auth.js 313-324): only the
persisted fields are copied into the fresh object literal; the remaining
fields default (stream-only fields are not present on a database row). -/
def loadedRecord (v : VRec) : VRec :=
  { id := v.id, mmsi := v.mmsi, name := v.name, imo := v.imo,
    callsign := v.callsign, ship_type := v.ship_type, added_at := v.added_at,
    latitude := v.latitude, longitude := v.longitude }

/-- The tracked-store update of the stream handler (auth.js 2115-2118):
merge the fresh record over the existing tracked record, when tracked. -/
def streamMergeTracked (my : VMap) (v : VRec) : VMap :=
  match mget my v.mmsi with
  | some existing => mset my v.mmsi (mergeVRec existing v)
  | none => my

/-- The admission guard of the stream handler (auth.js 2104-2109): with
dynamic bounds enabled and bounds known, a record that is not tracked and
lies outside the viewport is dropped. -/
def streamAccepts (s : Sys) (v : VRec) : Bool :=
  match s.bounds with
  | some b => mhas s.my v.mmsi || isWithinBounds v b
  | none => true

/-- One vessel_update message (auth.js 2094-2137). The Bool component
reports whether refreshMapWithFilters was invoked for this message. -/
def streamStep (s : Sys) (v : VRec) : Sys × Bool :=
  if streamAccepts s v then
    let ais2 := mset s.ais v.mmsi v
    let my2 := streamMergeTracked s.my v
    let su := decide (msize ais2 ≤ 20) || decide (msize ais2 % 10 = 0) || mhas my2 v.mmsi
    if su then
      if s.showAll then
        ({ s with my := my2, ais := ais2, all := munion my2 ais2 }, true)
      else if mhas my2 v.mmsi then
        ({ s with my := my2, ais := ais2, all := mrebuild my2 }, true)
      else ({ s with my := my2, ais := ais2 }, false)
    else ({ s with my := my2, ais := ais2 }, false)
  else (s, false)

/-- updateViewportBounds (auth.js 474-491). The JS function returns
undefined; the Nat component is its internal `removed` counter, which alone
decides whether the display set is rebuilt. The deletion loop keeps exactly
the in-bounds cache entries; tracked membership is not consulted. -/
def updateViewportBounds (s : Sys) (b : Option Bounds) : Sys × Nat :=
  match b with
  | none => ({ s with bounds := b }, 0)
  | some bb =>
    if msize s.ais = 0 then ({ s with bounds := b }, 0)
    else
      let ais2 := s.ais.filter (fun p => isWithinBounds p.2 bb)
      let removed := msize s.ais - msize ais2
      if decide (0 < removed) && s.showAll then
        ({ s with bounds := b, ais := ais2, all := munion s.my ais2 }, removed)
      else ({ s with bounds := b, ais := ais2 }, removed)

/-- The discrete events that mutate the vessel maps; each models one
run-to-completion handler of auth.js, with remote results arriving as event
payloads. -/
inductive Ev where
  | load (vs : List VRec)
  | toggle
  | stream (v : VRec)
  | bbox (vs : List VRec)
  | viewport (b : Option Bounds)
  | track (mmsiStr : String) (v : VRec)
  | untrack (mmsiStr : String)
  | clearTracked

/-- The double delete by string key and parsed numeric key used by the
untrack flow (auth.js 1257-1260). -/
def deleteBothKeys (m : VMap) (mmsiStr : String) : VMap :=
  match jsParseInt mmsiStr with
  | some n => mdelete (mdelete m (MKey.str mmsiStr)) (MKey.num (Int.ofNat n))
  | none => mdelete m (MKey.str mmsiStr)

/-- The event step function: load = loadMyVesselsFromDatabase (auth.js
312-337), toggle = toggleVesselSource (2017-2052), stream = a vessel_update
message (2094-2137), bbox = the remote admission path of searchInBoundingBox
(1973-1993, which forces all-vessels mode), viewport = updateViewportBounds
(474-491), track = the successful tail of addVesselByMMSI (1181-1188),
untrack = the local removal of confirmRemoveVessel (1256-1260), clearTracked
= the clear-all flow (1616-1623). -/
def step (s : Sys) : Ev → Sys
  | .load vs =>
    let my2 := vs.foldl (fun m v => mset m v.mmsi (loadedRecord v)) s.my
    { s with my := my2, all := rebuildAll my2 s.ais s.showAll }
  | .toggle =>
    let sa := !s.showAll
    { s with showAll := sa, all := rebuildAll s.my s.ais sa }
  | .stream v => (streamStep s v).1
  | .bbox vs =>
    let ais2 := admitAll s.ais (dedupeVesselsByMmsi vs)
    { s with showAll := true, ais := ais2, all := munion s.my ais2 }
  | .viewport b => (updateViewportBounds s b).1
  | .track mstr v =>
    let my2 := mset s.my (MKey.str mstr) v
    { s with my := my2, all := rebuildAll my2 s.ais s.showAll }
  | .untrack mstr =>
    { s with my := deleteBothKeys s.my mstr, all := deleteBothKeys s.all mstr }
  | .clearTracked =>
    { s with my := [], all := if s.showAll then mrebuild s.ais else [] }

/-- The states reachable from the initial globals by event sequences. -/
inductive Reachable : Sys → Prop where
  | base : Reachable initSys
  | next : ∀ (s : Sys) (e : Ev), Reachable s → Reachable (step s e)

/- ===== Stream connection guards (auth.js 2054-2079 and
unnamed/part_000 994-1038) ===== -/

/-- WebSocket readyState values. -/
inductive WSReady where
  | connecting
  | opened
  | closing
  | closed
deriving DecidableEq, Repr

/-- One stream client: the socket variable (aisWebSocket resp. ws, null
before the first connect) and the number of `new WebSocket(...)`
constructions performed so far, i.e. connections open or being established. -/
structure StreamConn where
  sock : Option WSReady
  created : Nat
deriving DecidableEq, Repr

/-- connectToAISStream (auth.js 2054-2068): return early exactly when the
socket exists and its readyState is OPEN; otherwise construct a new
WebSocket, which starts in the CONNECTING state. -/
def connectToAISStream (c : StreamConn) : StreamConn :=
  if c.sock = some .opened then c
  else { sock := some .connecting, created := c.created + 1 }

/-- connectWebSocket of the secondary client (unnamed/part_000 994-1000):
no connection-state guard, always constructs a new WebSocket. -/
def connectWebSocket (c : StreamConn) : StreamConn :=
  { sock := some .connecting, created := c.created + 1 }

/- ===== Structural lemmas about the state machine ===== -/

theorem admitAll_eq (m : VMap) (vs : List VRec) :
    admitAll m vs = (vs.map (fun v => (v.mmsi, v))).foldl (fun acc p => mset acc p.1 p.2) m := by
  rw [admitAll, List.foldl_map]

theorem loadFold_eq (m : VMap) (vs : List VRec) :
    vs.foldl (fun acc v => mset acc v.mmsi (loadedRecord v)) m =
      (vs.map (fun v => (v.mmsi, loadedRecord v))).foldl (fun acc p => mset acc p.1 p.2) m := by
  rw [List.foldl_map]

theorem mhas_streamMergeTracked (my : VMap) (v : VRec) (k : MKey) :
    mhas (streamMergeTracked my v) k = mhas my k := by
  unfold streamMergeTracked
  cases hg : mget my v.mmsi with
  | none => rfl
  | some e =>
    rw [mhas_mset]
    by_cases hk : k = v.mmsi
    · subst hk
      simp [mhas, hg]
    · simp [hk]

theorem wfm_streamMergeTracked (my : VMap) (v : VRec) (h : WFm my) :
    WFm (streamMergeTracked my v) := by
  unfold streamMergeTracked
  cases mget my v.mmsi with
  | none => exact h
  | some e => exact wfm_mset _ _ _ h

theorem wfm_rebuildAll (my ais : VMap) (sa : Bool) : WFm (rebuildAll my ais sa) := by
  unfold rebuildAll
  cases sa
  · exact wfm_mrebuild _
  · exact wfm_munion _ _

theorem mhas_rebuildAll (my ais : VMap) (sa : Bool) (k : MKey) (h : mhas my k = true) :
    mhas (rebuildAll my ais sa) k = true := by
  unfold rebuildAll
  cases sa
  · simp only [Bool.false_eq_true, if_false]
    exact (mhas_mrebuild_iff my k).mpr ((mhas_iff_mem my k).mp h)
  · simp only [if_true]
    exact (mhas_munion my ais k).mpr (Or.inl h)

/-- The safety invariant carried through every event: the three maps are
well formed and every tracked key is present in the display set. -/
def SysInv (s : Sys) : Prop :=
  WFm s.my ∧ WFm s.ais ∧ WFm s.all ∧ ∀ k, mhas s.my k = true → mhas s.all k = true

theorem sysInv_init : SysInv initSys := by
  refine ⟨wfm_nil, wfm_nil, wfm_nil, ?_⟩
  intro k h
  simp [initSys, mhas, mget] at h

theorem mhas_deleteBothKeys (m : VMap) (mstr : String) (k : MKey) (h : WFm m) :
    mhas (deleteBothKeys m mstr) k = true ↔
      (mhas m k = true ∧ k ≠ MKey.str mstr ∧
        (∀ n, jsParseInt mstr = some n → k ≠ MKey.num (Int.ofNat n))) := by
  unfold deleteBothKeys
  cases hp : jsParseInt mstr with
  | none =>
    rw [mhas_mdelete m (MKey.str mstr) k h]
    constructor
    · intro hh
      rw [Bool.and_eq_true] at hh
      obtain ⟨h1, h2⟩ := hh
      refine ⟨h1, ?_, ?_⟩
      · simpa using h2
      · intro n hn
        simp [hp] at hn
    · rintro ⟨h1, h2, _⟩
      simp [h1, h2]
  | some n =>
    rw [mhas_mdelete _ (MKey.num (Int.ofNat n)) k (wfm_mdelete m (MKey.str mstr) h),
      mhas_mdelete m (MKey.str mstr) k h]
    constructor
    · intro hh
      rw [Bool.and_eq_true] at hh
      obtain ⟨h12, h3⟩ := hh
      rw [Bool.and_eq_true] at h12
      obtain ⟨h1, h2⟩ := h12
      refine ⟨h1, by simpa using h2, ?_⟩
      intro n2 hn2
      have hn2e : n2 = n := by
        simp [hp] at hn2
        exact hn2.symm
      subst hn2e
      simpa using h3
    · rintro ⟨h1, h2, h3⟩
      have h3n : k ≠ MKey.num (Int.ofNat n) := h3 n rfl
      simp [h1, h2, h3n]
      exact h3n

theorem wfm_deleteBothKeys (m : VMap) (mstr : String) (h : WFm m) :
    WFm (deleteBothKeys m mstr) := by
  unfold deleteBothKeys
  cases jsParseInt mstr
  · exact wfm_mdelete _ _ h
  · exact wfm_mdelete _ _ (wfm_mdelete _ _ h)

theorem sysInv_step (s : Sys) (e : Ev) (h : SysInv s) : SysInv (step s e) := by
  obtain ⟨hmy, hais, hall, hsub⟩ := h
  cases e with
  | load vs =>
    simp only [step]
    rw [loadFold_eq]
    refine ⟨wfm_foldl_mset _ _ hmy, hais, wfm_rebuildAll _ _ _, ?_⟩
    intro k hk
    exact mhas_rebuildAll _ _ _ k hk
  | toggle =>
    exact ⟨hmy, hais, wfm_rebuildAll _ _ _, fun k hk => mhas_rebuildAll _ _ _ k hk⟩
  | stream v =>
    simp only [step, streamStep]
    by_cases hacc : streamAccepts s v = true
    · rw [if_pos hacc]
      have hmy2 : WFm (streamMergeTracked s.my v) := wfm_streamMergeTracked _ _ hmy
      have hais2 : WFm (mset s.ais v.mmsi v) := wfm_mset _ _ _ hais
      by_cases hsu : (decide (msize (mset s.ais v.mmsi v) ≤ 20) ||
          decide (msize (mset s.ais v.mmsi v) % 10 = 0) ||
          mhas (streamMergeTracked s.my v) v.mmsi) = true
      · rw [if_pos hsu]
        by_cases hsa : s.showAll = true
        · rw [if_pos hsa]
          refine ⟨hmy2, hais2, wfm_munion _ _, ?_⟩
          intro k hk
          exact (mhas_munion _ _ k).mpr (Or.inl hk)
        · rw [if_neg hsa]
          by_cases htr : mhas (streamMergeTracked s.my v) v.mmsi = true
          · rw [if_pos htr]
            refine ⟨hmy2, hais2, wfm_mrebuild _, ?_⟩
            intro k hk
            exact (mhas_mrebuild_iff _ k).mpr ((mhas_iff_mem _ k).mp hk)
          · rw [if_neg htr]
            refine ⟨hmy2, hais2, hall, ?_⟩
            intro k hk
            rw [mhas_streamMergeTracked] at hk
            exact hsub k hk
      · rw [if_neg hsu]
        refine ⟨hmy2, hais2, hall, ?_⟩
        intro k hk
        rw [mhas_streamMergeTracked] at hk
        exact hsub k hk
    · rw [if_neg hacc]
      exact ⟨hmy, hais, hall, hsub⟩
  | bbox vs =>
    simp only [step]
    rw [admitAll_eq]
    refine ⟨hmy, wfm_foldl_mset _ _ hais, wfm_munion _ _, ?_⟩
    intro k hk
    exact (mhas_munion _ _ k).mpr (Or.inl hk)
  | viewport b =>
    cases b with
    | none => exact ⟨hmy, hais, hall, hsub⟩
    | some bb =>
      simp only [step, updateViewportBounds]
      by_cases hz : msize s.ais = 0
      · rw [if_pos hz]
        exact ⟨hmy, hais, hall, hsub⟩
      · rw [if_neg hz]
        have hf : WFm (s.ais.filter (fun p => isWithinBounds p.2 bb)) := wfm_filter _ _ hais
        by_cases hbr : (decide (0 < msize s.ais -
            msize (s.ais.filter (fun p => isWithinBounds p.2 bb))) && s.showAll) = true
        · rw [if_pos hbr]
          refine ⟨hmy, hf, wfm_munion _ _, ?_⟩
          intro k hk
          exact (mhas_munion _ _ k).mpr (Or.inl hk)
        · rw [if_neg hbr]
          exact ⟨hmy, hf, hall, hsub⟩
  | track mstr v =>
    simp only [step]
    refine ⟨wfm_mset _ _ _ hmy, hais, wfm_rebuildAll _ _ _, ?_⟩
    intro k hk
    exact mhas_rebuildAll _ _ _ k hk
  | untrack mstr =>
    simp only [step]
    refine ⟨wfm_deleteBothKeys _ _ hmy, hais, wfm_deleteBothKeys _ _ hall, ?_⟩
    intro k hk
    rw [mhas_deleteBothKeys _ _ _ hmy] at hk
    rw [mhas_deleteBothKeys _ _ _ hall]
    exact ⟨hsub k hk.1, hk.2.1, hk.2.2⟩
  | clearTracked =>
    simp only [step]
    refine ⟨wfm_nil, hais, ?_, ?_⟩
    · by_cases hsa : s.showAll = true
      · rw [if_pos hsa]; exact wfm_mrebuild _
      · rw [if_neg hsa]; exact wfm_nil
    · intro k hk
      simp [mhas, mget] at hk

theorem reachable_sysInv (s : Sys) (h : Reachable s) : SysInv s := by
  induction h with
  | base => exact sysInv_init
  | next s e _ ih => exact sysInv_step s e ih

theorem length_sub_filter (l : List (MKey × VRec)) (p : MKey × VRec → Bool) :
    l.length - (l.filter p).length = (l.filter (fun x => !p x)).length := by
  induction l with
  | nil => rfl
  | cons x rest ih =>
    have hle : (rest.filter p).length ≤ rest.length := List.length_filter_le p rest
    by_cases h : p x = true <;> simp [List.filter_cons, h] <;> omega

/- ===== Claim C1: purity and shape of the display-set fusion ===== -/

def c1tracked : VMap := [(MKey.str "111", { mmsi := MKey.str "111", name := some "ALPHA" })]

def c1cache : VMap := [(MKey.num 222, { mmsi := MKey.num 222, name := some "BETA" })]

/-- C1: computeDisplaySet is a pure function of (tracked store, live cache,
display mode): in AllVessels mode its keys are exactly the union of the two
key sets (the cache record winning at a shared key, as the spread rebuild
dictates), in TrackedOnly mode the result is exactly the tracked store, and
two calls on identical inputs give identical results. -/
theorem computeDisplaySet_spec (tracked cache : VMap) (ht : WFm tracked) (hc : WFm cache) :
    (∀ k, mhas (computeDisplaySet tracked cache .AllVessels) k = true ↔
      (mhas tracked k = true ∨ mhas cache k = true)) ∧
    (∀ k, mget (computeDisplaySet tracked cache .AllVessels) k =
      oor (mget cache k) (mget tracked k)) ∧
    computeDisplaySet tracked cache .TrackedOnly = tracked ∧
    (∀ mode, computeDisplaySet tracked cache mode = computeDisplaySet tracked cache mode) :=
  ⟨fun k => mhas_munion tracked cache k,
   fun k => mget_munion tracked cache k ht hc,
   mrebuild_eq_self tracked ht,
   fun _ => rfl⟩

theorem computeDisplaySet_spec_witness :
    computeDisplaySet c1tracked c1cache .TrackedOnly = c1tracked ∧
    (mhas (computeDisplaySet c1tracked c1cache .AllVessels) (MKey.num 222) = true ↔
      (mhas c1tracked (MKey.num 222) = true ∨ mhas c1cache (MKey.num 222) = true)) :=
  ⟨(computeDisplaySet_spec c1tracked c1cache (by decide) (by decide)).2.2.1,
   (computeDisplaySet_spec c1tracked c1cache (by decide) (by decide)).1 (MKey.num 222)⟩

/- ===== Claim C2: viewport eviction ===== -/

def c2vessel : VRec := { mmsi := MKey.str "111222333", latitude := 41, longitude := 29 }

def c2state : Sys :=
  { my := [(MKey.str "111222333", c2vessel)]
    ais := [(MKey.str "111222333", c2vessel)]
    all := [(MKey.str "111222333", c2vessel)]
    showAll := true
    bounds := some { minLat := 40, minLon := 27, maxLat := 42, maxLon := 30 } }

def c2newBounds : Bounds := { minLat := 43, minLon := 27, maxLat := 44, maxLon := 30 }

/-- C2 counterexample: a cache entry whose MMSI is tracked and whose position
lies outside the new bounds is nonetheless evicted: the pass removes 1 entry,
not the 0 promised by the claim for a tracked MMSI, because the eviction loop
of updateViewportBounds never consults tracked membership. -/
theorem viewport_eviction_tracked_cex :
    mhas c2state.my (MKey.str "111222333") = true ∧
    isWithinBounds c2vessel c2newBounds = false ∧
    (updateViewportBounds c2state (some c2newBounds)).2 = 1 ∧
    mhas ((updateViewportBounds c2state (some c2newBounds)).1).ais (MKey.str "111222333") = false := by
  decide

/-- C2 (amended): for a non-null bounds update on a non-empty cache, the
eviction pass keeps exactly the in-bounds cache entries regardless of tracked
membership, its internal removal count (the JS function itself returns
undefined) is the number of out-of-bounds entries, the tracked store is
untouched, and the display set is rebuilt exactly when that count is positive
and the display mode includes the cache. -/
theorem viewport_eviction_characterization (s : Sys) (bb : Bounds) (hne : ¬ msize s.ais = 0) :
    (updateViewportBounds s (some bb)).1.ais = s.ais.filter (fun p => isWithinBounds p.2 bb) ∧
    (updateViewportBounds s (some bb)).2 = (s.ais.filter (fun p => !isWithinBounds p.2 bb)).length ∧
    (updateViewportBounds s (some bb)).1.my = s.my ∧
    ((updateViewportBounds s (some bb)).1.all =
      if decide (0 < (updateViewportBounds s (some bb)).2) && s.showAll
      then munion s.my (s.ais.filter (fun p => isWithinBounds p.2 bb)) else s.all) := by
  have hrem : msize s.ais - msize (s.ais.filter (fun p => isWithinBounds p.2 bb)) =
      (s.ais.filter (fun p => !isWithinBounds p.2 bb)).length :=
    length_sub_filter s.ais _
  simp only [updateViewportBounds, if_neg hne]
  by_cases hbr : (decide (0 < msize s.ais -
      msize (s.ais.filter (fun p => isWithinBounds p.2 bb))) && s.showAll) = true
  · rw [if_pos hbr]
    refine ⟨rfl, hrem, rfl, ?_⟩
    rw [if_pos hbr]
  · rw [if_neg hbr]
    refine ⟨rfl, hrem, rfl, ?_⟩
    rw [if_neg hbr]

theorem viewport_eviction_characterization_witness :
    (updateViewportBounds c2state (some c2newBounds)).1.my = c2state.my ∧
    (updateViewportBounds c2state (some c2newBounds)).2 =
      (c2state.ais.filter (fun p => !isWithinBounds p.2 c2newBounds)).length :=
  ⟨(viewport_eviction_characterization c2state c2newBounds (by decide)).2.2.1,
   (viewport_eviction_characterization c2state c2newBounds (by decide)).2.1⟩

/- ===== Claim C3: tracked records survive viewport eviction in the fused
view ===== -/

def c3tracked : VRec := { mmsi := MKey.str "123456789", id := some 7, latitude := 41, longitude := 29 }

def c3state : Sys := step initSys (.load [c3tracked])

def c3bounds : Bounds := { minLat := 43, minLon := 27, maxLat := 44, maxLon := 30 }

/-- C3: in every reachable state, after a viewport-bounds change and its
eviction pass every MMSI key of the tracked store is still present in the
fused display set: a viewport check never evicts a tracked record from the
fused view. -/
theorem tracked_never_evicted_from_display (s : Sys) (hs : Reachable s)
    (b : Option Bounds) (k : MKey)
    (hk : mhas ((updateViewportBounds s b).1).my k = true) :
    mhas ((updateViewportBounds s b).1).all k = true := by
  have hinv : SysInv (step s (.viewport b)) :=
    sysInv_step s (.viewport b) (reachable_sysInv s hs)
  exact hinv.2.2.2 k hk

theorem tracked_never_evicted_witness :
    mhas ((updateViewportBounds c3state (some c3bounds)).1).all (MKey.str "123456789") = true :=
  tracked_never_evicted_from_display c3state
    (Reachable.next initSys (.load [c3tracked]) Reachable.base)
    (some c3bounds) (MKey.str "123456789") (by decide)

/- ===== Claim C4: merge keeps identity, adopts telemetry ===== -/

theorem streamStep_my (s : Sys) (v : VRec) (hacc : streamAccepts s v = true) :
    ((streamStep s v).1).my = streamMergeTracked s.my v := by
  simp only [streamStep, if_pos hacc]
  by_cases h1 : (decide (msize (mset s.ais v.mmsi v) ≤ 20) ||
      decide (msize (mset s.ais v.mmsi v) % 10 = 0) ||
      mhas (streamMergeTracked s.my v) v.mmsi) = true
  · rw [if_pos h1]
    by_cases h2 : s.showAll = true
    · rw [if_pos h2]
    · rw [if_neg h2]
      by_cases h3 : mhas (streamMergeTracked s.my v) v.mmsi = true
      · rw [if_pos h3]
      · rw [if_neg h3]
  · rw [if_neg h1]

/-- C4: when the stream delivers a fresh record for a tracked MMSI, the
stream handler stores the spread merge in the tracked store: the merged
record keeps the tracked identity fields (id, added_at, which the fresh
stream record does not carry) and adopts position, speed, heading and the
status flags of the fresh record. -/
theorem merge_keeps_identity_adopts_telemetry (s : Sys) (v existing : VRec)
    (hget : mget s.my v.mmsi = some existing)
    (hid : v.id = none) (hadd : v.added_at = none) :
    mget ((streamStep s v).1).my v.mmsi = some (mergeVRec existing v) ∧
    (mergeVRec existing v).id = existing.id ∧
    (mergeVRec existing v).added_at = existing.added_at ∧
    (mergeVRec existing v).latitude = v.latitude ∧
    (mergeVRec existing v).longitude = v.longitude ∧
    (mergeVRec existing v).speed = v.speed ∧
    (mergeVRec existing v).heading = v.heading ∧
    (mergeVRec existing v).is_ballast = v.is_ballast ∧
    (mergeVRec existing v).is_anchored = v.is_anchored ∧
    (mergeVRec existing v).is_stationary = v.is_stationary := by
  have htr : mhas s.my v.mmsi = true := by simp [mhas, hget]
  have hacc : streamAccepts s v = true := by
    unfold streamAccepts
    cases s.bounds <;> simp [htr]
  refine ⟨?_, ?_, ?_, rfl, rfl, rfl, rfl, rfl, rfl, rfl⟩
  · rw [streamStep_my s v hacc]
    unfold streamMergeTracked
    rw [hget, mget_mset]
    simp
  · simp [mergeVRec, hid, oor]
  · simp [mergeVRec, hadd, oor]

def c4tracked : VRec :=
  { mmsi := MKey.str "123456789", id := some 7, added_at := some "2024-01-01" }

def c4fresh : VRec := { mmsi := MKey.str "123456789", speed := 15 }

def c4state : Sys :=
  { my := [(MKey.str "123456789", c4tracked)], ais := [],
    all := [(MKey.str "123456789", c4tracked)], showAll := true, bounds := none }

theorem merge_keeps_identity_witness :
    mget ((streamStep c4state c4fresh).1).my c4fresh.mmsi = some (mergeVRec c4tracked c4fresh) ∧
    (mergeVRec c4tracked c4fresh).id = some 7 ∧
    (mergeVRec c4tracked c4fresh).speed = 15 := by
  have h := merge_keeps_identity_adopts_telemetry c4state c4fresh c4tracked (by decide) rfl rfl
  exact ⟨h.1, h.2.1.trans rfl, h.2.2.2.2.2.1.trans rfl⟩

/- ===== Claim C5: per-MMSI uniqueness under admission sequences ===== -/

def c5num : VRec := { mmsi := MKey.num 123, name := some "NUMKEY" }

def c5str : VRec := { mmsi := MKey.str "123", name := some "STRKEY" }

/-- C5 counterexample: the same logical MMSI admitted once as the number 123
and once as the string "123" produces two distinct cache entries (JS Map keys
are compared with SameValueZero and nothing normalizes the representation),
so the cache does not hold at most one record per MMSI: by the source's own
loose matcher, both stored records match the MMSI term "123". -/
theorem admission_mmsi_duplication_cex :
    msize (admitAll [] [c5num, c5str]) = 2 ∧
    mget (admitAll [] [c5num, c5str]) (MKey.num 123) = some c5num ∧
    mget (admitAll [] [c5num, c5str]) (MKey.str "123") = some c5str ∧
    looseMmsiMatch "123" c5num = true ∧
    looseMmsiMatch "123" c5str = true := by
  decide

/-- C5 (amended): over every admission sequence into the live cache, the map
holds at most one entry per MMSI key representation (its keys stay pairwise
distinct), and the entry found under a key is the latest admission with that
key, falling back to the prior content: the later admission's fields win
while the key itself (the record identity) is preserved. A string-typed and
a number-typed arrival of the same digits count as different keys. -/
theorem admission_unique_last_wins (m : VMap) (vs : List VRec) (hm : WFm m) :
    WFm (admitAll m vs) ∧
    ∀ k, mget (admitAll m vs) k =
      oor (lastVal (vs.map (fun v => (v.mmsi, v))) k) (mget m k) := by
  rw [admitAll_eq]
  exact ⟨wfm_foldl_mset _ _ hm, fun k => mget_foldl_mset _ _ k⟩

def c5a : VRec := { mmsi := MKey.str "9", speed := 1 }

def c5b : VRec := { mmsi := MKey.str "9", speed := 2 }

theorem admission_unique_last_wins_witness :
    WFm (admitAll [] [c5a, c5b]) ∧
    mget (admitAll [] [c5a, c5b]) (MKey.str "9") =
      oor (lastVal ([c5a, c5b].map (fun v => (v.mmsi, v))) (MKey.str "9")) (mget [] (MKey.str "9")) :=
  ⟨(admission_unique_last_wins [] [c5a, c5b] wfm_nil).1,
   (admission_unique_last_wins [] [c5a, c5b] wfm_nil).2 (MKey.str "9")⟩

/- ===== Claim C6: full selection of a filter category is a no-op ===== -/

theorem status_type_disjoint : ∀ x ∈ statusNames, x ∉ typeNames := by decide

theorem type_status_disjoint : ∀ x ∈ typeNames, x ∉ statusNames := by decide

theorem statusOf_union_statusAll (T : Finset String) (_hT : T ⊆ typeNames.toFinset) :
    statusOf (T ∪ statusNames.toFinset) = statusNames.toFinset := by
  ext x
  simp only [statusOf, Finset.mem_filter, Finset.mem_union, List.mem_toFinset]
  constructor
  · rintro ⟨_, hs⟩
    exact hs
  · intro hx
    exact ⟨Or.inr hx, hx⟩

theorem typeOf_union_statusAll (T : Finset String) (hT : T ⊆ typeNames.toFinset) :
    typeOf (T ∪ statusNames.toFinset) = T := by
  ext x
  simp only [typeOf, Finset.mem_filter, Finset.mem_union, List.mem_toFinset]
  constructor
  · rintro ⟨hx | hx, ht⟩
    · exact hx
    · exact absurd ht (status_type_disjoint x hx)
  · intro hx
    exact ⟨Or.inl hx, List.mem_toFinset.mp (hT hx)⟩

theorem statusOf_subset_typeNames (T : Finset String) (hT : T ⊆ typeNames.toFinset) :
    statusOf T = ∅ := by
  ext x
  simp only [statusOf, Finset.mem_filter, Finset.not_mem_empty, iff_false]
  rintro ⟨hx, hs⟩
  exact type_status_disjoint x (List.mem_toFinset.mp (hT hx)) hs

theorem typeOf_subset_typeNames (T : Finset String) (hT : T ⊆ typeNames.toFinset) :
    typeOf T = T := by
  ext x
  simp only [typeOf, Finset.mem_filter]
  exact ⟨fun h => h.1, fun h => ⟨h, List.mem_toFinset.mp (hT h)⟩⟩

theorem typeOf_union_typeAll (S : Finset String) (_hS : S ⊆ statusNames.toFinset) :
    typeOf (S ∪ typeNames.toFinset) = typeNames.toFinset := by
  ext x
  simp only [typeOf, Finset.mem_filter, Finset.mem_union, List.mem_toFinset]
  constructor
  · rintro ⟨_, ht⟩
    exact ht
  · intro hx
    exact ⟨Or.inr hx, hx⟩

theorem statusOf_union_typeAll (S : Finset String) (hS : S ⊆ statusNames.toFinset) :
    statusOf (S ∪ typeNames.toFinset) = S := by
  ext x
  simp only [statusOf, Finset.mem_filter, Finset.mem_union, List.mem_toFinset]
  constructor
  · rintro ⟨hx | hx, hs⟩
    · exact hx
    · exact absurd hs (type_status_disjoint x hx)
  · intro hx
    exact ⟨Or.inl hx, List.mem_toFinset.mp (hS hx)⟩

theorem typeOf_subset_statusNames (S : Finset String) (hS : S ⊆ statusNames.toFinset) :
    typeOf S = ∅ := by
  ext x
  simp only [typeOf, Finset.mem_filter, Finset.not_mem_empty, iff_false]
  rintro ⟨hx, ht⟩
  exact status_type_disjoint x (List.mem_toFinset.mp (hS hx)) ht

theorem statusOf_subset_statusNames (S : Finset String) (hS : S ⊆ statusNames.toFinset) :
    statusOf S = S := by
  ext x
  simp only [statusOf, Finset.mem_filter]
  exact ⟨fun h => h.1, fun h => ⟨h, List.mem_toFinset.mp (hS h)⟩⟩

theorem allStatusSelected_full : allStatusSelected statusNames.toFinset = true := by decide

theorem allTypesSelected_full : allTypesSelected typeNames.toFinset = true := by decide

/-- C6: applying the map filter with all four status filters selected (or
all four type filters selected) produces exactly the same output list as
applying it with that category empty, for every vessel list and every choice
of filters in the other category. -/
theorem filter_full_selection_noop (S T : Finset String) (vs : List VRec)
    (hS : S ⊆ statusNames.toFinset) (hT : T ⊆ typeNames.toFinset) :
    filterByActiveFilters (T ∪ statusNames.toFinset) vs = filterByActiveFilters T vs ∧
    filterByActiveFilters (S ∪ typeNames.toFinset) vs = filterByActiveFilters S vs := by
  constructor
  · have hpred : ∀ v, vesselPassesFilters (T ∪ statusNames.toFinset) v =
        vesselPassesFilters T v := by
      intro v
      unfold vesselPassesFilters
      rw [statusOf_union_statusAll T hT, typeOf_union_statusAll T hT,
        statusOf_subset_typeNames T hT, typeOf_subset_typeNames T hT]
      simp [allStatusSelected_full]
    have hcardU : ¬ (T ∪ statusNames.toFinset).card = 0 := by
      rw [Finset.card_eq_zero]
      intro h0
      have hm : "moving" ∈ T ∪ statusNames.toFinset :=
        Finset.mem_union_right T (by decide)
      rw [h0] at hm
      exact Finset.not_mem_empty _ hm
    unfold filterByActiveFilters
    rw [if_neg hcardU]
    by_cases hTc : T.card = 0
    · rw [if_pos hTc]
      have hTe : T = ∅ := Finset.card_eq_zero.mp hTc
      subst hTe
      refine List.filter_eq_self.mpr ?_
      intro v _
      rw [hpred v]
      simp [vesselPassesFilters, statusOf, typeOf]
    · rw [if_neg hTc]
      exact List.filter_congr (fun v _ => hpred v)
  · have hpred : ∀ v, vesselPassesFilters (S ∪ typeNames.toFinset) v =
        vesselPassesFilters S v := by
      intro v
      unfold vesselPassesFilters
      rw [typeOf_union_typeAll S hS, statusOf_union_typeAll S hS,
        typeOf_subset_statusNames S hS, statusOf_subset_statusNames S hS]
      simp [allTypesSelected_full]
    have hcardU : ¬ (S ∪ typeNames.toFinset).card = 0 := by
      rw [Finset.card_eq_zero]
      intro h0
      have hm : "tanker" ∈ S ∪ typeNames.toFinset :=
        Finset.mem_union_right S (by decide)
      rw [h0] at hm
      exact Finset.not_mem_empty _ hm
    unfold filterByActiveFilters
    rw [if_neg hcardU]
    by_cases hSc : S.card = 0
    · rw [if_pos hSc]
      have hSe : S = ∅ := Finset.card_eq_zero.mp hSc
      subst hSe
      refine List.filter_eq_self.mpr ?_
      intro v _
      rw [hpred v]
      simp [vesselPassesFilters, statusOf, typeOf]
    · rw [if_neg hSc]
      exact List.filter_congr (fun v _ => hpred v)

def c6vessels : List VRec :=
  [{ mmsi := MKey.num 1, is_anchored := true },
   { mmsi := MKey.num 2, ship_category := some "Tanker" },
   { mmsi := MKey.num 3, ship_type := some "General Cargo" }]

theorem filter_full_selection_noop_witness :
    filterByActiveFilters ({"tanker"} ∪ statusNames.toFinset) c6vessels =
      filterByActiveFilters {"tanker"} c6vessels ∧
    filterByActiveFilters ({"ballast"} ∪ typeNames.toFinset) c6vessels =
      filterByActiveFilters {"ballast"} c6vessels :=
  ⟨(filter_full_selection_noop {"ballast"} {"tanker"} c6vessels (by decide) (by decide)).1,
   (filter_full_selection_noop {"ballast"} {"tanker"} c6vessels (by decide) (by decide)).2⟩

/- ===== Claim C7: dedup keeps the first occurrence per MMSI ===== -/

theorem dedupeGo_eq_keepFirst (vs : List VRec) (seen : List String) (prev : List VRec)
    (hrel : ∀ key, key ∈ seen ↔ ∃ u ∈ prev, mmsiDedupKey u = key)
    (hvs : ∀ v ∈ vs, ¬ mmsiDedupKey v = "") :
    dedupeGo seen vs = keepFirstByKey prev vs := by
  induction vs generalizing seen prev with
  | nil => rfl
  | cons v rest ih =>
    have hv : ¬ mmsiDedupKey v = "" := hvs v (by simp)
    have hvs2 : ∀ u ∈ rest, ¬ mmsiDedupKey u = "" := fun u hu => hvs u (by simp [hu])
    simp only [dedupeGo, keepFirstByKey, if_neg hv]
    by_cases hseen : mmsiDedupKey v ∈ seen
    · have hany : (prev.any fun u => decide (mmsiDedupKey u = mmsiDedupKey v)) = true := by
        obtain ⟨u, hu, he⟩ := (hrel _).mp hseen
        exact List.any_eq_true.mpr ⟨u, hu, by simp [he]⟩
      rw [if_pos hseen, if_pos hany]
      refine ih seen (prev ++ [v]) ?_ hvs2
      intro key
      rw [hrel key]
      constructor
      · rintro ⟨u, hu, he⟩
        exact ⟨u, by simp [hu], he⟩
      · rintro ⟨u, hu, he⟩
        rcases List.mem_append.mp hu with h1 | h1
        · exact ⟨u, h1, he⟩
        · have huv : u = v := by simpa using h1
          subst huv
          obtain ⟨w, hw, hwe⟩ := (hrel _).mp hseen
          exact ⟨w, hw, hwe.trans he⟩
    · have hany : ¬ (prev.any fun u => decide (mmsiDedupKey u = mmsiDedupKey v)) = true := by
        rw [List.any_eq_true]
        rintro ⟨u, hu, he⟩
        have he2 : mmsiDedupKey u = mmsiDedupKey v := by simpa using he
        exact hseen ((hrel _).mpr ⟨u, hu, he2⟩)
      rw [if_neg hseen, if_neg hany]
      congr 1
      refine ih (mmsiDedupKey v :: seen) (prev ++ [v]) ?_ hvs2
      intro key
      simp only [List.mem_cons]
      constructor
      · rintro (rfl | hk)
        · exact ⟨v, by simp, rfl⟩
        · obtain ⟨u, hu, he⟩ := (hrel key).mp hk
          exact ⟨u, by simp [hu], he⟩
      · rintro ⟨u, hu, he⟩
        rcases List.mem_append.mp hu with h1 | h1
        · exact Or.inr ((hrel key).mpr ⟨u, h1, he⟩)
        · have huv : u = v := by simpa using h1
          subst huv
          exact Or.inl he.symm

/-- C7: for every list of vessel records that all carry an MMSI key,
dedupeVesselsByMmsi keeps exactly the first occurrence of each MMSI key in
iteration order and drops all later duplicates (the spec-side
first-occurrence dedup). -/
theorem dedupe_keeps_first_occurrence (vs : List VRec)
    (h : ∀ v ∈ vs, ¬ mmsiDedupKey v = "") :
    dedupeVesselsByMmsi vs = specDedupeFirstOcc vs := by
  refine dedupeGo_eq_keepFirst vs [] [] ?_ h
  intro key
  simp

def c7a : VRec := { mmsi := MKey.num 1, name := some "A" }

def c7b : VRec := { mmsi := MKey.num 1, name := some "B" }

def c7c : VRec := { mmsi := MKey.num 2, name := some "C" }

theorem dedupe_keeps_first_occurrence_witness :
    dedupeVesselsByMmsi [c7a, c7b, c7c] = specDedupeFirstOcc [c7a, c7b, c7c] ∧
    specDedupeFirstOcc [c7a, c7b, c7c] = [c7a, c7c] :=
  ⟨dedupe_keeps_first_occurrence [c7a, c7b, c7c] (by decide), by decide⟩

/- ===== Claim C8: lookup order of findByIdentifier ===== -/

def c8live : VRec := { mmsi := MKey.str "123", name := some "LIVE" }

def c8tracked : VRec := { mmsi := MKey.str "123", name := some "TRACKED" }

def c8my : VMap := [(MKey.str "123", c8tracked)]

def c8ais : VMap := [(MKey.str "123", c8live)]

/-- C8 counterexample: for the all-digits term "123" present in both the
tracked store and the live cache, the source probes the live cache first
(`aisVessels.get(searchTerm) || myVessels.get(searchTerm)`) and returns the
live record, while the claim (tracked store first) names the tracked one. -/
theorem find_order_cex :
    findByIdentifier c8my c8ais "123" = some c8live ∧
    specFindTrackedFirst c8my c8ais "123" = some c8tracked ∧
    c8live ≠ c8tracked := by
  decide

/-- C8 (amended): findByIdentifier resolves an all-digits term by an exact
string-key probe of the live cache first, then the tracked store, then the
first loose (string- or number-typed) MMSI match over the merged map; a
non-digits term is resolved by the first case-insensitive name substring
match over the merged map. -/
theorem findByIdentifier_cache_first (myV aisV : VMap) (t : String) :
    findByIdentifier myV aisV t = specFindCacheFirst myV aisV t := by
  unfold findByIdentifier specFindCacheFirst
  by_cases h : isAllDigits t = true
  · rw [if_pos h, if_pos h]
    rcases hais : mget aisV (MKey.str t) with _ | va <;>
      rcases hmy : mget myV (MKey.str t) with _ | vm <;>
      simp [oor, hais, hmy]
  · rw [if_neg h, if_neg h]

/- ===== Claim C9: map refresh scheduling ===== -/

/-- C9 (amended): for a stream record passing the admission guard, the map
layer is refreshed exactly when the cache size after the admission is at most
20 or divisible by 10, or the record's MMSI is tracked, and then only when
the display mode shows it (all-vessels mode, or the record is tracked); a
record rejected by the guard leaves the state unchanged and never refreshes.
The threshold tests the current cache size, not the number of admissions
since a (re)connect. -/
theorem map_refresh_policy (s : Sys) (v : VRec) :
    (streamAccepts s v = true →
      (streamStep s v).2 =
        ((decide (msize (mset s.ais v.mmsi v) ≤ 20) ||
          decide (msize (mset s.ais v.mmsi v) % 10 = 0) ||
          mhas s.my v.mmsi) &&
         (s.showAll || mhas s.my v.mmsi))) ∧
    (streamAccepts s v = false → streamStep s v = (s, false)) := by
  constructor
  · intro hacc
    simp only [streamStep, mhas_streamMergeTracked]
    rw [if_pos hacc]
    by_cases h1 : (decide (msize (mset s.ais v.mmsi v) ≤ 20) ||
        decide (msize (mset s.ais v.mmsi v) % 10 = 0) || mhas s.my v.mmsi) = true
    · rw [if_pos h1, h1]
      by_cases h2 : s.showAll = true
      · rw [if_pos h2, h2]
        simp
      · rw [if_neg h2]
        rw [Bool.not_eq_true] at h2
        by_cases h3 : mhas s.my v.mmsi = true
        · rw [if_pos h3, h2, h3]
          simp
        · rw [if_neg h3]
          rw [Bool.not_eq_true] at h3
          rw [h2, h3]
          simp
    · rw [if_neg h1]
      rw [Bool.not_eq_true] at h1
      rw [h1]
      simp
  · intro hacc
    simp only [streamStep, hacc]
    simp

def c9mk (i : Int) : VRec := { mmsi := MKey.num i }

def c9vessels : List VRec := (List.range 20).map (fun i => c9mk (Int.ofNat i + 1))

def c9state : Sys := c9vessels.foldl (fun s v => (streamStep s v).1) initSys

/-- C9 counterexample: after twenty admissions of distinct MMSIs the
twenty-first admitted message repeats the first MMSI: it is not among the
first twenty admissions, not a multiple-of-ten admission, and not tracked,
yet the code refreshes the map because the cache size after it is 20. -/
theorem map_refresh_policy_cex :
    c9vessels.length = 20 ∧
    mhas c9state.my (MKey.num 1) = false ∧
    msize (mset c9state.ais (MKey.num 1) (c9mk 1)) = 20 ∧
    (streamStep c9state (c9mk 1)).2 = true ∧
    ¬ ((20 + 1 : Nat) ≤ 20 ∨ (20 + 1) % 10 = 0) := by
  decide

theorem map_refresh_policy_witness :
    (streamStep c9state (c9mk 1)).2 =
      ((decide (msize (mset c9state.ais (c9mk 1).mmsi (c9mk 1)) ≤ 20) ||
        decide (msize (mset c9state.ais (c9mk 1).mmsi (c9mk 1)) % 10 = 0) ||
        mhas c9state.my (c9mk 1).mmsi) &&
       (c9state.showAll || mhas c9state.my (c9mk 1).mmsi)) :=
  (map_refresh_policy c9state (c9mk 1)).1 (by decide)

/- ===== Claim C10: connect guards of the two stream clients ===== -/

/-- C10 counterexample: while the primary socket is still CONNECTING, a
further connect call constructs a second WebSocket (the guard checks only
the OPEN state), and the secondary client constructs a new WebSocket even
while one is OPEN: both clients can reach two live connection attempts. -/
theorem connect_guard_cex :
    (connectToAISStream { sock := some .connecting, created := 1 }).created = 2 ∧
    (connectWebSocket { sock := some .opened, created := 1 }).created = 2 := by
  decide

/-- C10 (amended): the live-telemetry client's connect is a no-op exactly
when its socket exists and is OPEN; in every other state, including
CONNECTING, it establishes a new connection; the secondary subscription
client's connect always establishes a new connection, whatever the state. -/
theorem connect_guard_characterization (c : StreamConn) :
    (c.sock = some .opened → connectToAISStream c = c) ∧
    (¬ c.sock = some .opened →
      (connectToAISStream c).created = c.created + 1 ∧
      (connectToAISStream c).sock = some .connecting) ∧
    (connectWebSocket c).created = c.created + 1 := by
  refine ⟨fun h => ?_, fun h => ?_, rfl⟩
  · simp [connectToAISStream, h]
  · simp [connectToAISStream, h]

theorem connect_guard_characterization_witness :
    connectToAISStream { sock := some .opened, created := 3 } =
      { sock := some .opened, created := 3 } ∧
    (connectToAISStream { sock := none, created := 0 }).created = 1 :=
  ⟨(connect_guard_characterization { sock := some .opened, created := 3 }).1 rfl,
   ((connect_guard_characterization { sock := none, created := 0 }).2.1 (by decide)).1⟩

end Quayside
